import Mathlib

/-!
Verification of the verse-delivery core of `bible-companion-bot`
(`src/verses.js`, `src/storage.js`, `src/scheduler.js`) against its
natural-language specification.

The JavaScript source is shallowly embedded: strings are Lean `String`s
manipulated as `List Char`, JSON objects become association lists, dates
become day numbers (`Nat`), and the ambient wall clock and the random
shuffle of `Array.prototype.sort(() => Math.random() - 0.5)` become
explicit parameters (the shuffle is an arbitrary permutation-producing
function).
-/

namespace BibleBot

/-! ### String utilities (embedding JS string primitives) -/

/-- `s.toLowerCase()` at the character-list level. -/
def lowerChars (s : String) : List Char :=
  s.toList.map Char.toLower

/-- `replace(/[^a-z\s]/g, '')`: keep only `a`–`z` and whitespace. -/
def keepAlphaWs (cs : List Char) : List Char :=
  cs.filter (fun c => (decide ('a' ≤ c) && decide (c ≤ 'z')) || c.isWhitespace)

/-- Helper for `split(/\s+/)`: accumulate the current word, cut at whitespace. -/
def splitWsAux : List Char → List Char → List (List Char)
  | [], cur => [cur.reverse]
  | c :: rest, cur =>
    if c.isWhitespace then cur.reverse :: splitWsAux rest []
    else splitWsAux rest (c :: cur)

/-- `split(/\s+/)` modulo empty pieces (which every caller filters out by length). -/
def splitWs (cs : List Char) : List (List Char) :=
  splitWsAux cs []

/-- `needle` is a prefix of `hay` (character-wise). -/
def startsWithChars : List Char → List Char → Bool
  | [], _ => true
  | _ :: _, [] => false
  | a :: as, b :: bs => a == b && startsWithChars as bs

/-- JS `hay.includes(needle)`: `needle` occurs as a contiguous substring of `hay`. -/
def containsSub (needle : List Char) : List Char → Bool
  | [] => startsWithChars needle []
  | c :: t => startsWithChars needle (c :: t) || containsSub needle (t)

/-! ### Search engine (`searchVerses` in src/verses.js) -/

/-- The STOPWORDS set of src/verses.js. -/
def STOPWORDS : List String :=
  ["the","a","an","is","are","was","were","be","been","being","have","has","had",
   "do","does","did","will","would","could","should","may","might","shall","can",
   "to","of","in","for","on","with","at","by","from","up","about","into",
   "i","me","my","we","our","you","your","he","his","she","her","it","its",
   "they","them","their","what","which","who","this","that","these","those",
   "not","no","so","but","and","or","if","then","than","when","where","how",
   "all","both","some","just","as","while","also","more","very","feel","need",
   "want","know","think","help","please","am","get","got","let","put","say"]

/-- Query tokenization of `searchVerses`: lowercase, strip non-letters,
split on whitespace, keep tokens of length > 2 that are not stopwords. -/
def tokenize (q : String) : List String :=
  ((splitWs (keepAlphaWs (lowerChars q))).map (fun cs => String.mk cs)).filter
    (fun w => decide (2 < w.length) && !(STOPWORDS.contains w))

/-- `lower.includes(word)` where `lower` is the lowercased verse text. -/
def occursIn (w : String) (text : String) : Bool :=
  containsSub w.toList (lowerChars text)

/-- The scoring loop of `searchVerses`: one point for every query word
(with multiplicity) contained in the lowercased verse text. -/
def verseScore (words : List String) (text : String) : Nat :=
  words.foldl (fun s w => if containsSub w.toList (lowerChars text) then s + 1 else s) 0

/-- One corpus entry as held in `kjvVerses`. -/
structure Verse where
  ref : String
  text : String
deriving DecidableEq

/-- One entry of the `scored` array of `searchVerses`. -/
structure Scored where
  score : Nat
  ref : String
  text : String
deriving DecidableEq

/-- Building the `scored` array: entries with score 0 are skipped, corpus order kept. -/
def buildScored (words : List String) (vs : List Verse) : List Scored :=
  vs.filterMap (fun v =>
    let s := verseScore words v.text
    if 0 < s then some ⟨s, v.ref, v.text⟩ else none)

/-- Stable insertion step of `scored.sort((a, b) => b.score - a.score)`:
a later element is placed after all existing elements of score ≥ its own. -/
def insortDesc (x : Scored) : List Scored → List Scored
  | [] => [x]
  | h :: t => if h.score < x.score then x :: h :: t else h :: insortDesc x (t)

/-- `scored.sort((a, b) => b.score - a.score)` — a stable sort by descending
score (JS `Array.prototype.sort` is stable), taking elements in corpus order. -/
def sortScoredDesc (l : List Scored) : List Scored :=
  l.foldl (fun acc x => insortDesc x acc) []

/-- `searchVerses(query, limit)` of src/verses.js over corpus `vs`. -/
def searchVerses (vs : List Verse) (query : String) (limit : Nat) : List Verse :=
  let words := tokenize query
  if words = [] then []
  else ((sortScoredDesc (buildScored words vs)).take limit).map
    (fun s => { ref := s.ref, text := s.text })

/-! ### Corpus loading (module top level of src/verses.js) -/

/-- `String(text).trim()`. -/
def trimStr (s : String) : String :=
  String.mk (((s.toList.dropWhile Char.isWhitespace).reverse.dropWhile Char.isWhitespace).reverse)

/-- `replace(/\s+/g, '')`: strip all whitespace (used on book names). -/
def stripSpaces (s : String) : String :=
  String.mk (s.toList.filter (fun c => !c.isWhitespace))

/-- The internal index key `"<BookNoSpaces>|<chapter>|<verse>"`. -/
def refKeyOf (book : String) (chapter verse : Nat) : String :=
  stripSpaces book ++ "|" ++ toString chapter ++ "|" ++ toString verse

/-- `Map.set` on the association-list model of a JS `Map`: overwrite an
existing key in place, otherwise append. -/
def mapSet (m : List (String × String)) (k v : String) : List (String × String) :=
  if m.any (fun e => e.1 == k) then m.map (fun e => if e.1 == k then (k, v) else e)
  else m ++ [(k, v)]

/-- One record of the flat-array corpus shape, with the field aliases the
loader checks (`book_name ?? book ?? Book`, `chapter ?? Chapter`, …). -/
structure RawRecord where
  book_name : Option String
  book : Option String
  bookAlt : Option String
  chapter : Option Nat
  chapterAlt : Option Nat
  verse : Option Nat
  verseAlt : Option Nat
  text : Option String
  textAlt : Option String
deriving DecidableEq

/-- `v.book_name ?? v.book ?? v.Book`, then the JS truthiness test of
`if (book && …)` — the empty string is falsy. -/
def recBook (r : RawRecord) : Option String :=
  match r.book_name <|> r.book <|> r.bookAlt with
  | some s => if s = "" then none else some s
  | none => none

/-- `v.chapter ?? v.Chapter` with truthiness (0 is falsy). -/
def recChapter (r : RawRecord) : Option Nat :=
  match r.chapter <|> r.chapterAlt with
  | some n => if n = 0 then none else some n
  | none => none

/-- `v.verse ?? v.Verse` with truthiness (0 is falsy). -/
def recVerse (r : RawRecord) : Option Nat :=
  match r.verse <|> r.verseAlt with
  | some n => if n = 0 then none else some n
  | none => none

/-- `v.text ?? v.Text` with truthiness (the empty string is falsy). -/
def recText (r : RawRecord) : Option String :=
  match r.text <|> r.textAlt with
  | some s => if s = "" then none else some s
  | none => none

/-- Array-shape load loop: fills both `kjvIndex` and `kjvVerses`. -/
def loadArray (arr : List RawRecord) : List (String × String) × List Verse :=
  arr.foldl (fun acc r =>
    match recBook r, recChapter r, recVerse r, recText r with
    | some b, some c, some v, some t =>
      let clean := trimStr t
      (mapSet acc.1 (refKeyOf b c v) clean,
       acc.2 ++ [⟨b ++ " " ++ toString c ++ ":" ++ toString v, clean⟩])
    | _, _, _, _ => acc) ([], [])

/-- `key.split('.')` as a character-level split on `'.'` (empty pieces kept,
as in JS). -/
def splitDotAux : List Char → List Char → List String
  | [], cur => [String.mk cur.reverse]
  | c :: rest, cur =>
    if c = '.' then String.mk cur.reverse :: splitDotAux rest []
    else splitDotAux rest (c :: cur)

/-- `key.split('.')`. -/
def splitDot (s : String) : List String :=
  splitDotAux s.toList []

/-- Object-shape (dot-keyed) load loop: pops the last two segments as
chapter and verse, joins the rest as the book, and fills only `kjvIndex` —
`kjvVerses` is left untouched by this branch of the loader. -/
def loadObject (obj : List (String × String)) : List (String × String) × List Verse :=
  (obj.foldl (fun idx kv =>
      if kv.2 = "" then idx
      else
        match (splitDot kv.1).reverse with
        | v :: c :: restRev =>
          let book := String.join restRev.reverse
          if book ≠ "" ∧ c ≠ "" ∧ v ≠ "" then
            mapSet idx (book ++ "|" ++ c ++ "|" ++ v) (trimStr kv.2)
          else idx
        | _ => idx) [],
   [])

/-- The two accepted shapes of `data/kjv.json`. -/
inductive KjvRaw where
  | arr (l : List RawRecord)
  | obj (l : List (String × String))

/-- The corpus loader: dispatch on the input shape. -/
def loadKjv : KjvRaw → List (String × String) × List Verse
  | .arr l => loadArray l
  | .obj l => loadObject l

/-! ### Topics, refs and lookup -/

/-- A passage reference as stored in `topics.json`. -/
structure Ref where
  book : String
  chapter : Nat
  verse : Nat
deriving DecidableEq

/-- `formatRef`: the canonical `"Book Chapter:Verse"` string. -/
def formatRef (r : Ref) : String :=
  r.book ++ " " ++ toString r.chapter ++ ":" ++ toString r.verse

/-- Read-only state built at startup: the KJV index and flat verse list,
and the topic catalog. -/
structure Env where
  kjvIndex : List (String × String)
  kjvVerses : List Verse
  topics : List (String × List Ref)

/-- `lookupText`: query the index with the space-stripped book name. -/
def lookupText (idx : List (String × String)) (r : Ref) : Option String :=
  (idx.find? (fun e => decide (e.1 = refKeyOf r.book r.chapter r.verse))).map (·.2)

/-- `topics[topicName]` (an empty ref list is still a present, truthy entry). -/
def lookupTopic (ts : List (String × List Ref)) (name : String) : Option (List Ref) :=
  (ts.find? (fun e => decide (e.1 = name))).map (·.2)

/-! ### Sent-verse ledger (src/storage.js) -/

/-- Ledger key: `"<userId>|<date>"`, modelled as the pair; dates are day
numbers. -/
abbrev LKey := String × Nat

/-- `data/sent_verses.json` as an association list (JS object). -/
abbrev Ledger := List (LKey × List String)

/-- `log[key]` (`undefined` when absent). -/
def lookupLog (L : Ledger) (k : LKey) : Option (List String) :=
  (L.find? (fun e => decide (e.1 = k))).map (·.2)

/-- `getSentVersesToday(userId, date)`: `log[key] ?? []`. -/
def getSentVersesToday (L : Ledger) (uid : String) (d : Nat) : List String :=
  (lookupLog L (uid, d)).getD []

/-- Assignment `log[key] = value` on the JS object (whose keys are unique):
overwrite the entry in place, or append a fresh key at the end. -/
def setLog : Ledger → LKey → List String → Ledger
  | [], k, v => [(k, v)]
  | e :: t, k, v => if e.1 = k then (k, v) :: t else e :: setLog t k v

/-- The pruning loop of `logVerse`: delete every entry whose date is more
than 7 days before `now`, the current wall-clock date (`new Date()` minus
7 days). -/
def pruneLog (now : Nat) (L : Ledger) : Ledger :=
  L.filter (fun e => !(decide (e.1.2 + 7 < now)))

/-- `logVerse(userId, verseRef, date)`: no-op if the ref is already logged
for the key; otherwise push it and prune. `now` is the ambient wall-clock
date from which the code computes the cutoff. -/
def logVerse (L : Ledger) (uid verseRef : String) (d : Nat) (now : Nat) : Ledger :=
  let cur := getSentVersesToday L uid d
  if verseRef ∈ cur then L
  else pruneLog now (setLog L (uid, d) (cur ++ [verseRef]))

/-- `for (const ref of picked) logVerse(...)`. -/
def logMany (L : Ledger) (uid : String) (d now : Nat) (refs : List String) : Ledger :=
  refs.foldl (fun acc r => logVerse acc uid r d now) L

/-! ### Subscribers (src/storage.js, src/scheduler.js) -/

/-- A subscriber record of `data/users.json`. -/
structure User where
  user_id : String
  topic : String
  morning : String
  midday : String
  afternoon : String
  evening : String
deriving DecidableEq

/-- `getUsersByTime(hhmm)`: filter on the four delivery slots. -/
def getUsersByTime (users : List User) (hhmm : String) : List User :=
  users.filter (fun u =>
    decide (u.morning = hhmm) || decide (u.midday = hhmm) ||
    decide (u.afternoon = hhmm) || decide (u.evening = hhmm))

/-! ### Delivery selector (`getVersesForUser` in src/verses.js) -/

/-- `user.topic || 'encouragement'` (the empty string is falsy). -/
def effectiveTopic (u : User) : String :=
  if u.topic = "" then "encouragement" else u.topic

/-- A topic ref resolves against the index. -/
def resolvable (env : Env) (r : Ref) : Bool :=
  (lookupText env.kjvIndex r).isSome

/-- `getVersesForUser(user, count)`, fuelled because the fallback branch
re-invokes the function. `shR`/`shV` model the in-place random shuffle
`sort(() => Math.random() - 0.5)` (an arbitrary rearrangement); `today` is
`todayDate()`; `now` is the wall clock seen by `logVerse`; the result is
the returned verse list paired with the updated ledger, or `none` when the
fuel runs out before a non-recursive branch is reached. -/
def getVersesForUserF (fuel : Nat) (env : Env) (shR : List Ref → List Ref)
    (shV : List Verse → List Verse) (today now : Nat) (L : Ledger)
    (user : User) (count : Nat) : Option (List Verse × Ledger) :=
  match fuel with
  | 0 => none
  | fuel + 1 =>
    let topicName := effectiveTopic user
    let sentToday := getSentVersesToday L user.user_id today
    match lookupTopic env.topics topicName with
    | some refs =>
      let avail0 := refs.filter (fun r =>
        resolvable env r && !(decide (formatRef r ∈ sentToday)))
      let available := if avail0.isEmpty then refs.filter (resolvable env) else avail0
      if available.isEmpty then some ([], L)
      else
        let picked := (shR available).take (min count available.length)
        let L' := logMany L user.user_id today now (picked.map formatRef)
        some (picked.map (fun r =>
          { ref := formatRef r, text := (lookupText env.kjvIndex r).getD "" }), L')
    | none =>
      let pool := searchVerses env.kjvVerses topicName 20
      if pool.isEmpty then
        getVersesForUserF fuel env shR shV today now L { user with topic := "encouragement" } count
      else
        let available := pool.filter (fun v => !(decide (v.ref ∈ sentToday)))
        let source := if available.isEmpty then pool else available
        let picked := (shV source).take (min count source.length)
        let L' := logMany L user.user_id today now (picked.map Verse.ref)
        some (picked, L')

/-- The candidate pool (as formatted ref strings) that the selector draws
from before sent-today exclusion: the catalog's resolvable refs for a
catalog topic, the top-20 search results otherwise. -/
def candidatePool (env : Env) (topicName : String) : List String :=
  match lookupTopic env.topics topicName with
  | some refs => (refs.filter (resolvable env)).map formatRef
  | none => (searchVerses env.kjvVerses topicName 20).map Verse.ref

/-! ### Ledger lemmas -/

theorem lookupLog_cons (e : LKey × List String) (t : Ledger) (k : LKey) :
    lookupLog (e :: t) k = if e.1 = k then some e.2 else lookupLog t k := by
  by_cases h : e.1 = k <;> simp [lookupLog, List.find?, h]

theorem lookupLog_setLog (L : Ledger) (k k' : LKey) (v : List String) :
    lookupLog (setLog L k v) k' = if k' = k then some v else lookupLog L k' := by
  induction L with
  | nil =>
    by_cases h : k' = k
    · simp [setLog, lookupLog_cons, h]
    · have h' : ¬ k = k' := fun hh => h hh.symm
      simp [setLog, lookupLog_cons, lookupLog, List.find?, h, h']
  | cons e t ih =>
    by_cases he : e.1 = k
    · by_cases h : k' = k
      · simp_all [setLog, lookupLog_cons]
      · have h' : ¬ k = k' := fun hh => h hh.symm
        simp_all [setLog, lookupLog_cons]
    · by_cases h1 : e.1 = k' <;> by_cases h2 : k' = k <;>
        simp_all [setLog, lookupLog_cons]

theorem lookupLog_pruneLog (now : Nat) (L : Ledger) (k : LKey) :
    lookupLog (pruneLog now L) k = if k.2 + 7 < now then none else lookupLog L k := by
  induction L with
  | nil => simp [pruneLog, lookupLog, List.find?]
  | cons e t ih =>
    by_cases hp : e.1.2 + 7 < now <;> by_cases hk : e.1 = k <;>
      simp_all [pruneLog, List.filter_cons, lookupLog_cons]

theorem lookupLog_logVerse_self (L : Ledger) (uid r : String) (d now : Nat)
    (h0 : r ∉ getSentVersesToday L uid d) (hfresh : ¬ d + 7 < now) :
    lookupLog (logVerse L uid r d now) (uid, d) =
      some (getSentVersesToday L uid d ++ [r]) := by
  simp only [logVerse, h0, if_neg]
  simp [lookupLog_pruneLog, lookupLog_setLog, hfresh]

/-- C4 (counterexample): the pruning cutoff of `logVerse` is computed from
the current wall-clock date, not from the `date` argument — here the entry
at day 0 is 100 days before the `date` argument, yet it survives the write
because the wall clock reads day 0. -/
theorem logVerse_prunes_by_clock_counterexample :
    lookupLog (logVerse [(("u", 0), ["a"])] "u" "b" 100 0) ("u", 0) = some ["a"]
    ∧ 0 + 7 < 100 := by
  decide

/-- C4 (amended): after a `logVerse` call that inserts a new ref, every
entry more than 7 days before the current wall-clock date `now` has been
removed, every other entry within that horizon is retained unchanged, and
the written key (if itself within the horizon) holds the old set plus the
new ref. -/
theorem logVerse_prune_spec (L : Ledger) (uid r : String) (d now : Nat)
    (h0 : r ∉ getSentVersesToday L uid d) :
    (∀ k : LKey, k.2 + 7 < now → lookupLog (logVerse L uid r d now) k = none)
    ∧ (∀ k : LKey, ¬ k.2 + 7 < now → k ≠ (uid, d) →
        lookupLog (logVerse L uid r d now) k = lookupLog L k)
    ∧ (¬ d + 7 < now →
        lookupLog (logVerse L uid r d now) (uid, d) =
          some (getSentVersesToday L uid d ++ [r])) := by
  refine ⟨fun k hk => ?_, fun k hk hne => ?_, fun hd => ?_⟩ <;>
    simp only [logVerse, h0, if_neg]
  · simp [lookupLog_pruneLog, hk]
  · simp [lookupLog_pruneLog, lookupLog_setLog, hk, hne]
  · simp [lookupLog_pruneLog, lookupLog_setLog, hd]

/-- Witness for `logVerse_prune_spec` at a concrete fresh write. -/
theorem logVerse_prune_spec_witness :
    lookupLog (logVerse [] "u" "a" 0 0) ("u", 0) =
      some (getSentVersesToday [] "u" 0 ++ ["a"]) :=
  (logVerse_prune_spec [] "u" "a" 0 0 (by decide)).2.2 (by decide)

theorem pruneLog_append (now : Nat) (A B : Ledger) :
    pruneLog now (A ++ B) = pruneLog now A ++ pruneLog now B := by
  simp [pruneLog, List.filter_append]

theorem pruneLog_idem (now : Nat) (L : Ledger) :
    pruneLog now (pruneLog now L) = pruneLog now L := by
  simp [pruneLog, List.filter_filter, Bool.and_self]

theorem setLog_absent (L : Ledger) (k : LKey) (v : List String)
    (h : lookupLog L k = none) : setLog L k v = L ++ [(k, v)] := by
  induction L with
  | nil => rfl
  | cons e t ih =>
    rw [lookupLog_cons] at h
    by_cases he : e.1 = k
    · rw [if_pos he] at h
      exact absurd h (by simp)
    · rw [if_neg he] at h
      simp [setLog, he, ih h]

/-- C8 (counterexample): for a `date` more than 7 days before the wall
clock, the prune step of the very append deletes the just-written key, so
after the first append the entry holds the ref 0 times, not exactly once —
the claim fails for such dates. -/
theorem logVerse_stale_date_counterexample :
    (getSentVersesToday (logVerse [] "u" "a" 0 100) "u" 0).count "a" = 0
    ∧ 0 + 7 < 100 := by
  decide

/-- C8 (amended): the second identical append always leaves the ledger
unchanged; the entry for the key holds the ref exactly once when the key's
date is within the 7-day wall-clock retention horizon (as for all of the
repo's `date = today` calls), and 0 times when it is outside (the prune of
the write deletes the key itself). -/
theorem logVerse_idempotent_amended (L : Ledger) (uid r : String) (d now : Nat)
    (h0 : r ∉ getSentVersesToday L uid d) :
    (¬ d + 7 < now →
      (getSentVersesToday (logVerse L uid r d now) uid d).count r = 1)
    ∧ (d + 7 < now →
      (getSentVersesToday (logVerse L uid r d now) uid d).count r = 0)
    ∧ logVerse (logVerse L uid r d now) uid r d now = logVerse L uid r d now := by
  have hL1 : logVerse L uid r d now =
      pruneLog now (setLog L (uid, d) (getSentVersesToday L uid d ++ [r])) := by
    simp [logVerse, h0]
  refine ⟨fun hfresh => ?_, fun hstale => ?_, ?_⟩
  · have h2 : getSentVersesToday (logVerse L uid r d now) uid d =
        getSentVersesToday L uid d ++ [r] := by
      have h1 := lookupLog_logVerse_self L uid r d now h0 hfresh
      simp [getSentVersesToday, h1]
    rw [h2]
    simp [List.count_append, List.count_eq_zero_of_not_mem h0]
  · have hlk : lookupLog (logVerse L uid r d now) (uid, d) = none := by
      rw [hL1, lookupLog_pruneLog]
      simp [hstale]
    simp [getSentVersesToday, hlk]
  · by_cases hd : d + 7 < now
    · have hlk : lookupLog (logVerse L uid r d now) (uid, d) = none := by
        rw [hL1, lookupLog_pruneLog]
        simp [hd]
      have hcur : getSentVersesToday (logVerse L uid r d now) uid d = [] := by
        simp [getSentVersesToday, hlk]
      have hnm : r ∉ getSentVersesToday (logVerse L uid r d now) uid d := by
        rw [hcur]
        simp
      have hstep : ∀ M : Ledger, r ∉ getSentVersesToday M uid d →
          logVerse M uid r d now =
            pruneLog now (setLog M (uid, d) (getSentVersesToday M uid d ++ [r])) := by
        intro M hM
        simp [logVerse, hM]
      rw [hstep _ hnm, hcur, List.nil_append, setLog_absent _ _ _ hlk, pruneLog_append]
      have hdrop : pruneLog now [((uid, d), [r])] = [] := by
        simp [pruneLog, hd]
      rw [hdrop, List.append_nil, hL1, pruneLog_idem]
    · have h2 : getSentVersesToday (logVerse L uid r d now) uid d =
          getSentVersesToday L uid d ++ [r] := by
        have h1 := lookupLog_logVerse_self L uid r d now h0 hd
        simp [getSentVersesToday, h1]
      have hmem : r ∈ getSentVersesToday (logVerse L uid r d now) uid d := by
        rw [h2]
        simp
      conv_lhs => rw [logVerse]
      simp [hmem]

/-- Witness for `logVerse_idempotent_amended`, exercising both the
within-horizon count and the unchanged second append, plus the
out-of-horizon count at a stale date. -/
theorem logVerse_idempotent_amended_witness :
    (getSentVersesToday (logVerse [] "u" "a" 0 0) "u" 0).count "a" = 1
    ∧ logVerse (logVerse [] "u" "a" 0 0) "u" "a" 0 0 = logVerse [] "u" "a" 0 0
    ∧ (getSentVersesToday (logVerse [] "u" "a" 0 100) "u" 0).count "a" = 0 :=
  ⟨(logVerse_idempotent_amended [] "u" "a" 0 0 (by decide)).1 (by decide),
   (logVerse_idempotent_amended [] "u" "a" 0 0 (by decide)).2.2,
   (logVerse_idempotent_amended [] "u" "a" 0 100 (by decide)).2.1 (by decide)⟩

/-- C9: the scheduler's directory query returns exactly the subscribers
one of whose four slots equals the queried HH:MM string, and (when the
directory has no duplicate subscriber ids) each subscriber appears at most
once even if several slots share the value. -/
theorem getUsersByTime_spec (users : List User) (hhmm : String) :
    (∀ u : User, u ∈ getUsersByTime users hhmm ↔
      u ∈ users ∧ (u.morning = hhmm ∨ u.midday = hhmm ∨
        u.afternoon = hhmm ∨ u.evening = hhmm))
    ∧ ((users.map User.user_id).Nodup →
        ((getUsersByTime users hhmm).map User.user_id).Nodup) := by
  constructor
  · intro u
    simp [getUsersByTime, List.mem_filter, or_assoc]
  · intro h
    exact h.sublist ((List.filter_sublist users).map User.user_id)

/-- Witness for `getUsersByTime_spec`: a one-subscriber directory. -/
theorem getUsersByTime_spec_witness :
    ((getUsersByTime [⟨"u1", "encouragement", "07:30", "12:00", "16:30", "21:00"⟩]
        "07:30").map User.user_id).Nodup :=
  (getUsersByTime_spec [⟨"u1", "encouragement", "07:30", "12:00", "16:30", "21:00"⟩]
    "07:30").2 (by decide)

/-- C10: the selector does NOT always terminate — with an empty topic
catalog and an empty searchable corpus, a subscriber on the default
`"encouragement"` topic makes `getVersesForUser` re-invoke itself with the
same arguments forever: no amount of fuel reaches a non-recursive branch. -/
theorem getVersesForUser_divergence :
    ∀ fuel count,
      getVersesForUserF fuel ⟨[], [], []⟩ id id 0 0 []
        ⟨"u1", "encouragement", "07:30", "12:00", "16:30", "21:00"⟩ count = none := by
  intro fuel
  induction fuel with
  | zero => intro count; rfl
  | succ n ih => intro count; exact ih count

/-- C6: loading the dot-keyed corpus shape fills the lookup index but
leaves the flat `kjvVerses` collection empty, so full-text search finds
nothing even though the corresponding verse is in the index. -/
theorem dotKeyed_corpus_not_searchable :
    (loadKjv (.obj [("Genesis.1.1",
        "In the beginning God created the heaven and the earth.")])).1 =
      [("Genesis|1|1", "In the beginning God created the heaven and the earth.")]
    ∧ (loadKjv (.obj [("Genesis.1.1",
        "In the beginning God created the heaven and the earth.")])).2 = []
    ∧ searchVerses (loadKjv (.obj [("Genesis.1.1",
        "In the beginning God created the heaven and the earth.")])).2
        "beginning" 10 = [] := by
  decide

/-! ### Search scoring (C5) -/

/-- The score as the specification words it: the number of DISTINCT
surviving query tokens that occur as a substring of the lowercased passage
text (for comparison with the score the code computes). -/
def specScoreDistinct (q text : String) : Nat :=
  ((tokenize q).dedup).countP (fun w => occursIn w text)

theorem foldl_score_count (text : String) (ws : List String) (n : Nat) :
    ws.foldl (fun s w => if containsSub w.toList (lowerChars text) then s + 1 else s) n
      = n + ws.countP (fun w => occursIn w text) := by
  induction ws generalizing n with
  | nil => simp
  | cons w t ih =>
    have ho : (fun w => occursIn w text) w = containsSub w.toList (lowerChars text) := rfl
    by_cases h : containsSub w.toList (lowerChars text) = true
    · simp only [List.foldl_cons, List.countP_cons, if_pos h, ih, ho]
      omega
    · simp only [List.foldl_cons, List.countP_cons, if_neg h, ih, ho]
      omega

/-- C5 (counterexample): a token repeated in the query is scored once per
occurrence, not once per distinct token — the code's score for the query
`"love love"` against a text containing `"love"` is 2, the spec's is 1. -/
theorem verseScore_distinct_counterexample :
    verseScore (tokenize "love love") "Love." = 2
    ∧ specScoreDistinct "love love" "Love." = 1 := by
  decide

/-- C5 (amended): the score equals the number of surviving query token
OCCURRENCES (with multiplicity) contained in the lowercased text — each
token occurrence contributes at most one point no matter how often it
appears in the text — and it coincides with the distinct-token count
exactly when the surviving tokens are pairwise distinct. -/
theorem verseScore_token_multiplicity (q text : String) :
    verseScore (tokenize q) text = (tokenize q).countP (fun w => occursIn w text)
    ∧ ((tokenize q).Nodup →
        verseScore (tokenize q) text = specScoreDistinct q text) := by
  have h1 : verseScore (tokenize q) text =
      (tokenize q).countP (fun w => occursIn w text) := by
    simpa [verseScore] using foldl_score_count text (tokenize q) 0
  refine ⟨h1, fun hn => ?_⟩
  rw [h1, specScoreDistinct, List.dedup_eq_self.mpr hn]

/-- Witness for `verseScore_token_multiplicity` on a duplicate-free query. -/
theorem verseScore_token_multiplicity_witness :
    verseScore (tokenize "mercy truth") "mercy and truth" =
      specScoreDistinct "mercy truth" "mercy and truth" :=
  (verseScore_token_multiplicity "mercy truth" "mercy and truth").2 (by decide)

/-! ### Ranking lemmas (C7) -/

theorem insortDesc_perm (x : Scored) (l : List Scored) :
    List.Perm (insortDesc x l) (x :: l) := by
  induction l with
  | nil => exact List.Perm.refl _
  | cons h t ih =>
    by_cases hc : h.score < x.score
    · simp [insortDesc, hc]
    · simp only [insortDesc, if_neg hc]
      exact (ih.cons h).trans (List.Perm.swap x h t)

theorem insortDesc_pairwise (x : Scored) (l : List Scored)
    (hl : l.Pairwise (fun a b => b.score ≤ a.score)) :
    (insortDesc x l).Pairwise (fun a b => b.score ≤ a.score) := by
  induction l with
  | nil => simp [insortDesc]
  | cons h t ih =>
    rcases List.pairwise_cons.mp hl with ⟨hh, ht⟩
    by_cases hc : h.score < x.score
    · simp only [insortDesc, if_pos hc]
      refine List.pairwise_cons.mpr ⟨?_, hl⟩
      intro b hb
      rcases List.mem_cons.mp hb with rfl | hb'
      · exact le_of_lt hc
      · exact le_trans (hh b hb') (le_of_lt hc)
    · simp only [insortDesc, if_neg hc]
      refine List.pairwise_cons.mpr ⟨?_, ih ht⟩
      intro b hb
      rcases List.mem_cons.mp ((insortDesc_perm x t).mem_iff.mp hb) with rfl | hb'
      · exact le_of_not_lt hc
      · exact hh b hb'

theorem foldl_insort_pairwise (l acc : List Scored)
    (hacc : acc.Pairwise (fun a b => b.score ≤ a.score)) :
    (l.foldl (fun a x => insortDesc x a) acc).Pairwise
      (fun a b => b.score ≤ a.score) := by
  induction l generalizing acc with
  | nil => simpa
  | cons x t ih => exact ih _ (insortDesc_pairwise x acc hacc)

theorem sortScoredDesc_pairwise (l : List Scored) :
    (sortScoredDesc l).Pairwise (fun a b => b.score ≤ a.score) :=
  foldl_insort_pairwise l [] (by simp)

theorem foldl_insort_perm (l acc : List Scored) :
    List.Perm (l.foldl (fun a x => insortDesc x a) acc) (acc ++ l) := by
  induction l generalizing acc with
  | nil => simp
  | cons x t ih =>
    rw [List.foldl_cons]
    exact (ih (insortDesc x acc)).trans
      (((insortDesc_perm x acc).append_right t).trans List.perm_middle.symm)

theorem sortScoredDesc_perm (l : List Scored) : List.Perm (sortScoredDesc l) l := by
  simpa [sortScoredDesc] using foldl_insort_perm l []

theorem insortDesc_filter_ne (x : Scored) (l : List Scored) (s : Nat)
    (hx : x.score ≠ s) :
    (insortDesc x l).filter (fun y => decide (y.score = s)) =
      l.filter (fun y => decide (y.score = s)) := by
  induction l with
  | nil => simp [insortDesc, hx]
  | cons h t ih =>
    by_cases hc : h.score < x.score
    · simp [insortDesc, hc, List.filter_cons, hx]
    · simp only [insortDesc, if_neg hc, List.filter_cons, ih]

theorem insortDesc_filter_eq (x : Scored) (l : List Scored)
    (hl : l.Pairwise (fun a b => b.score ≤ a.score)) :
    (insortDesc x l).filter (fun y => decide (y.score = x.score)) =
      l.filter (fun y => decide (y.score = x.score)) ++ [x] := by
  induction l with
  | nil => simp [insortDesc]
  | cons h t ih =>
    rcases List.pairwise_cons.mp hl with ⟨hh, ht⟩
    by_cases hc : h.score < x.score
    · have hnone : (h :: t).filter (fun y => decide (y.score = x.score)) = [] := by
        refine List.filter_eq_nil_iff.mpr ?_
        intro a ha
        rcases List.mem_cons.mp ha with rfl | ha'
        · simp only [decide_eq_true_eq]
          omega
        · have := hh a ha'
          simp only [decide_eq_true_eq]
          omega
      simp [insortDesc, hc, List.filter_cons, hnone]
    · rw [insortDesc, if_neg hc, List.filter_cons, List.filter_cons, ih ht]
      by_cases hph : h.score = x.score <;> simp [hph]

theorem foldl_insort_filter (l acc : List Scored) (s : Nat)
    (hacc : acc.Pairwise (fun a b => b.score ≤ a.score)) :
    (l.foldl (fun a x => insortDesc x a) acc).filter (fun y => decide (y.score = s)) =
      acc.filter (fun y => decide (y.score = s)) ++
        l.filter (fun y => decide (y.score = s)) := by
  induction l generalizing acc with
  | nil => simp
  | cons x t ih =>
    rw [List.foldl_cons, ih _ (insortDesc_pairwise x acc hacc), List.filter_cons]
    by_cases hx : x.score = s
    · subst hx
      rw [insortDesc_filter_eq x acc hacc]
      simp [List.append_assoc]
    · rw [insortDesc_filter_ne x acc s hx]
      simp [hx]

theorem sortScoredDesc_stable (l : List Scored) (s : Nat) :
    (sortScoredDesc l).filter (fun y => decide (y.score = s)) =
      l.filter (fun y => decide (y.score = s)) := by
  simpa [sortScoredDesc] using foldl_insort_filter l [] s (by simp)

theorem buildScored_pos (words : List String) (vs : List Verse) :
    ∀ x ∈ buildScored words vs, 0 < x.score := by
  intro x hx
  simp only [buildScored, List.mem_filterMap] at hx
  rcases hx with ⟨v, _, heq⟩
  by_cases h : 0 < verseScore words v.text
  · rw [if_pos h] at heq
    cases heq
    exact h
  · rw [if_neg h] at heq
    exact absurd heq (by simp)

/-- C7: the ranked list of `searchVerses` is sorted by non-increasing
score; entries of equal score keep their corpus order (the `scored` list
is built in corpus order and filtering the sorted list at any score gives
back exactly the corpus-order segment); every scored entry has a positive
score (score-0 entries are excluded); and the result is truncated to
`limit`. -/
theorem searchVerses_ranking (vs : List Verse) (q : String) (limit : Nat) :
    (sortScoredDesc (buildScored (tokenize q) vs)).Pairwise
      (fun a b => b.score ≤ a.score)
    ∧ (∀ s : Nat, (sortScoredDesc (buildScored (tokenize q) vs)).filter
        (fun y => decide (y.score = s)) =
        (buildScored (tokenize q) vs).filter (fun y => decide (y.score = s)))
    ∧ (∀ x ∈ sortScoredDesc (buildScored (tokenize q) vs), 0 < x.score)
    ∧ (searchVerses vs q limit).length ≤ limit := by
  refine ⟨sortScoredDesc_pairwise _, fun s => sortScoredDesc_stable _ s,
    fun x hx => buildScored_pos _ _ x ((sortScoredDesc_perm _).mem_iff.mp hx), ?_⟩
  by_cases h : tokenize q = []
  · simp [searchVerses, h]
  · have hs : searchVerses vs q limit =
        ((sortScoredDesc (buildScored (tokenize q) vs)).take limit).map
          (fun s => { ref := s.ref, text := s.text }) := by
      simp [searchVerses, h]
    rw [hs, List.length_map, List.length_take]
    exact min_le_left _ _

/-! ### Delivery-selector theorems (C1, C2, C3) -/

/-- C1: whenever the subscriber's topic resolves to a pool with at least
one ref not yet in today's sent set, every verse the selector returns has
a ref absent from today's sent set — it never pads with already-sent refs
while unseen ones remain. (`shR`/`shV` are the random shuffles, assumed
only to permute their input.) -/
theorem select_no_repeat
    (env : Env) (shR : List Ref → List Ref) (shV : List Verse → List Verse)
    (hshR : ∀ l, List.Perm (shR l) l) (hshV : ∀ l, List.Perm (shV l) l)
    (today now : Nat) (L : Ledger) (user : User) (count : Nat) (v : String)
    (hv : v ∈ candidatePool env (effectiveTopic user))
    (hunseen : v ∉ getSentVersesToday L user.user_id today)
    (vs : List Verse) (L' : Ledger)
    (hres : getVersesForUserF 1 env shR shV today now L user count = some (vs, L')) :
    ∀ w ∈ vs, w.ref ∉ getSentVersesToday L user.user_id today := by
  intro w hw
  cases ht : lookupTopic env.topics (effectiveTopic user) with
  | some refs =>
    rw [candidatePool, ht] at hv
    obtain ⟨r, hr, hfr⟩ := List.mem_map.mp hv
    obtain ⟨hrrefs, hrres⟩ := List.mem_filter.mp hr
    have hr0 : r ∈ refs.filter (fun r => resolvable env r &&
        !(decide (formatRef r ∈ getSentVersesToday L user.user_id today))) := by
      refine List.mem_filter.mpr ⟨hrrefs, ?_⟩
      simp [hrres, hfr, hunseen]
    have hie : (refs.filter (fun r => resolvable env r &&
        !(decide (formatRef r ∈ getSentVersesToday L user.user_id today)))).isEmpty
        = false :=
      List.isEmpty_eq_false.mpr (List.ne_nil_of_mem hr0)
    simp only [getVersesForUserF, ht, hie, Bool.false_eq_true, if_false,
      Option.some.injEq, Prod.mk.injEq] at hres
    obtain ⟨hvs, -⟩ := hres
    subst hvs
    obtain ⟨r', hr', hwr'⟩ := List.mem_map.mp hw
    have hr'mem := (hshR _).mem_iff.mp (List.mem_of_mem_take hr')
    have := (List.mem_filter.mp hr'mem).2
    rw [← hwr']
    simp only [Bool.and_eq_true, Bool.not_eq_true', decide_eq_false_iff_not] at this
    exact this.2
  | none =>
    rw [candidatePool, ht] at hv
    obtain ⟨p, hp, hpr⟩ := List.mem_map.mp hv
    have hie : (searchVerses env.kjvVerses (effectiveTopic user) 20).isEmpty = false :=
      List.isEmpty_eq_false.mpr (List.ne_nil_of_mem hp)
    have hp0 : p ∈ (searchVerses env.kjvVerses (effectiveTopic user) 20).filter
        (fun x => !(decide (x.ref ∈ getSentVersesToday L user.user_id today))) := by
      refine List.mem_filter.mpr ⟨hp, ?_⟩
      simp [hpr, hunseen]
    have hae : ((searchVerses env.kjvVerses (effectiveTopic user) 20).filter
        (fun x => !(decide (x.ref ∈ getSentVersesToday L user.user_id today)))).isEmpty
        = false :=
      List.isEmpty_eq_false.mpr (List.ne_nil_of_mem hp0)
    simp only [getVersesForUserF, ht, hie, hae, Bool.false_eq_true, if_false,
      Option.some.injEq, Prod.mk.injEq] at hres
    obtain ⟨hvs, -⟩ := hres
    subst hvs
    have hwmem := (hshV _).mem_iff.mp (List.mem_of_mem_take hw)
    have := (List.mem_filter.mp hwmem).2
    simp only [Bool.not_eq_true', decide_eq_false_iff_not] at this
    exact this

/-- A small concrete environment for witnesses: two indexed verses and one
catalog topic. -/
def envW : Env :=
  { kjvIndex := [("John|3|16", "For God so loved the world"),
                 ("Genesis|1|1", "In the beginning")],
    kjvVerses := [⟨"John 3:16", "For God so loved the world"⟩,
                  ⟨"Genesis 1:1", "In the beginning"⟩],
    topics := [("faith", [⟨"John", 3, 16⟩, ⟨"Genesis", 1, 1⟩])] }

/-- A concrete subscriber on the catalog topic of `envW`. -/
def userW : User := ⟨"u1", "faith", "07:30", "12:00", "16:30", "21:00"⟩

/-- Witness for `select_no_repeat`: with `"John 3:16"` already sent, the
selector returns only the unseen `"Genesis 1:1"`. -/
theorem select_no_repeat_witness :
    ("Genesis 1:1" : String) ∉
      getSentVersesToday [(("u1", 0), ["John 3:16"])] "u1" 0 := by
  have h := select_no_repeat envW id id (fun l => List.Perm.refl l)
    (fun l => List.Perm.refl l) 0 0 [(("u1", 0), ["John 3:16"])] userW 2
    "Genesis 1:1" (by decide) (by decide)
    [⟨"Genesis 1:1", "In the beginning"⟩]
    [(("u1", 0), ["John 3:16", "Genesis 1:1"])] (by decide)
  exact h ⟨"Genesis 1:1", "In the beginning"⟩ (by decide)

/-- C2: when the candidate pool is non-empty but every ref in it is in
today's sent set, the selector still returns `min(count, poolSize)`
verses, all drawn from the unfiltered pool (repeats permitted). -/
theorem select_exhaustion
    (env : Env) (shR : List Ref → List Ref) (shV : List Verse → List Verse)
    (hshR : ∀ l, List.Perm (shR l) l) (hshV : ∀ l, List.Perm (shV l) l)
    (today now : Nat) (L : Ledger) (user : User) (count : Nat)
    (hne : candidatePool env (effectiveTopic user) ≠ [])
    (hall : ∀ v ∈ candidatePool env (effectiveTopic user),
      v ∈ getSentVersesToday L user.user_id today) :
    (getVersesForUserF 1 env shR shV today now L user count).isSome = true
    ∧ ∀ vs L', getVersesForUserF 1 env shR shV today now L user count = some (vs, L') →
        vs.length = min count (candidatePool env (effectiveTopic user)).length
        ∧ ∀ w ∈ vs, w.ref ∈ candidatePool env (effectiveTopic user) := by
  cases ht : lookupTopic env.topics (effectiveTopic user) with
  | some refs =>
    simp only [candidatePool, ht] at hne hall ⊢
    have h0 : refs.filter (fun r => resolvable env r &&
        !(decide (formatRef r ∈ getSentVersesToday L user.user_id today))) = [] := by
      refine List.filter_eq_nil_iff.mpr ?_
      intro r hr
      simp only [Bool.and_eq_true, Bool.not_eq_true', decide_eq_false_iff_not, not_and]
      intro hres hns
      exact hns (hall (formatRef r)
        (List.mem_map_of_mem _ (List.mem_filter.mpr ⟨hr, hres⟩)))
    have hie0 : (refs.filter (fun r => resolvable env r &&
        !(decide (formatRef r ∈ getSentVersesToday L user.user_id today)))).isEmpty
        = true := by rw [h0]; rfl
    have hne2 : refs.filter (resolvable env) ≠ [] := by
      intro hnil
      exact hne (by rw [hnil]; rfl)
    have hie1 : (refs.filter (resolvable env)).isEmpty = false :=
      List.isEmpty_eq_false.mpr hne2
    constructor
    · simp only [getVersesForUserF, ht, hie0, if_true, hie1, Bool.false_eq_true,
        if_false, Option.isSome_some]
    · intro vs L' h
      simp only [getVersesForUserF, ht, hie0, if_true, hie1, Bool.false_eq_true,
        if_false, Option.some.injEq, Prod.mk.injEq] at h
      obtain ⟨hvs, -⟩ := h
      subst hvs
      constructor
      · rw [List.length_map, List.length_take, (hshR _).length_eq, List.length_map]
        omega
      · intro w hw
        obtain ⟨r2, hr2, hwr2⟩ := List.mem_map.mp hw
        rw [← hwr2]
        exact List.mem_map_of_mem _
          ((hshR _).mem_iff.mp (List.mem_of_mem_take hr2))
  | none =>
    simp only [candidatePool, ht] at hne hall ⊢
    have hpne : searchVerses env.kjvVerses (effectiveTopic user) 20 ≠ [] := by
      intro h
      exact hne (by rw [h]; rfl)
    have hie : (searchVerses env.kjvVerses (effectiveTopic user) 20).isEmpty = false :=
      List.isEmpty_eq_false.mpr hpne
    have h0 : (searchVerses env.kjvVerses (effectiveTopic user) 20).filter
        (fun x => !(decide (x.ref ∈ getSentVersesToday L user.user_id today))) = [] := by
      refine List.filter_eq_nil_iff.mpr ?_
      intro x hx
      simp only [Bool.not_eq_true', decide_eq_false_iff_not, Decidable.not_not]
      exact hall x.ref (List.mem_map_of_mem _ hx)
    have hie0 : ((searchVerses env.kjvVerses (effectiveTopic user) 20).filter
        (fun x => !(decide (x.ref ∈ getSentVersesToday L user.user_id today)))).isEmpty
        = true := by rw [h0]; rfl
    constructor
    · simp only [getVersesForUserF, ht, hie, Bool.false_eq_true, if_false, hie0,
        if_true, Option.isSome_some]
    · intro vs L' h
      simp only [getVersesForUserF, ht, hie, Bool.false_eq_true, if_false, hie0,
        if_true, Option.some.injEq, Prod.mk.injEq] at h
      obtain ⟨hvs, -⟩ := h
      subst hvs
      constructor
      · rw [List.length_take, (hshV _).length_eq, List.length_map]
        omega
      · intro w hw
        exact List.mem_map_of_mem _
          ((hshV _).mem_iff.mp (List.mem_of_mem_take hw))

/-- Witness for `select_exhaustion`: with both pool refs already sent, the
selector still returns a non-empty (`some`) result drawn from the pool. -/
theorem select_exhaustion_witness :
    (getVersesForUserF 1 envW id id 0 0
      [(("u1", 0), ["John 3:16", "Genesis 1:1"])] userW 2).isSome = true :=
  (select_exhaustion envW id id (fun l => List.Perm.refl l) (fun l => List.Perm.refl l)
    0 0 [(("u1", 0), ["John 3:16", "Genesis 1:1"])] userW 2
    (by decide) (by decide)).1

/-- Environment for the fallback counterexample: a catalog topic whose
only ref does not resolve, and a default topic with a resolvable ref. -/
def envC3 : Env :=
  { kjvIndex := [("Refuge|1|1", "A refuge in times of trouble")],
    kjvVerses := [⟨"Refuge 1:1", "A refuge in times of trouble"⟩],
    topics := [("mytopic", [⟨"Nowhere", 9, 9⟩]),
               ("encouragement", [⟨"Refuge", 1, 1⟩])] }

/-- C3 (counterexample): for a CATALOG topic whose refs all fail to
resolve, the selector returns the empty list directly — it does not fall
back to the default topic, although the default topic's pool is non-empty
and selecting on it directly would deliver a verse. -/
theorem select_no_fallback_counterexample :
    getVersesForUserF 5 envC3 id id 0 0 []
      ⟨"u1", "mytopic", "07:30", "12:00", "16:30", "21:00"⟩ 2 = some ([], [])
    ∧ candidatePool envC3 "encouragement" ≠ []
    ∧ (getVersesForUserF 1 envC3 id id 0 0 []
        ⟨"u1", "encouragement", "07:30", "12:00", "16:30", "21:00"⟩ 2).map
        (fun p => p.1.map Verse.ref) = some ["Refuge 1:1"] := by
  decide

/-- C3 (amended): the fallback to the default `"encouragement"` label
happens only for a topic ABSENT from the catalog whose free-text search
pool is empty (one re-invocation with the default label); a catalog topic
whose resolvable pool is empty yields the empty result with no fallback. -/
theorem select_fallback_amended
    (env : Env) (shR : List Ref → List Ref) (shV : List Verse → List Verse)
    (today now : Nat) (L : Ledger) (user : User) (count : Nat) :
    (∀ refs, lookupTopic env.topics (effectiveTopic user) = some refs →
      refs.filter (resolvable env) = [] →
      getVersesForUserF 1 env shR shV today now L user count = some ([], L))
    ∧ (lookupTopic env.topics (effectiveTopic user) = none →
      searchVerses env.kjvVerses (effectiveTopic user) 20 = [] →
      ∀ fuel, getVersesForUserF (fuel + 1) env shR shV today now L user count =
        getVersesForUserF fuel env shR shV today now L
          { user with topic := "encouragement" } count) := by
  constructor
  · intro refs ht hfil
    have h0 : refs.filter (fun r => resolvable env r &&
        !(decide (formatRef r ∈ getSentVersesToday L user.user_id today))) = [] := by
      refine List.filter_eq_nil_iff.mpr ?_
      intro r hr
      have hnres : ¬ resolvable env r = true := by
        intro hres
        have hmem : r ∈ refs.filter (resolvable env) :=
          List.mem_filter.mpr ⟨hr, hres⟩
        rw [hfil] at hmem
        exact absurd hmem (List.not_mem_nil r)
      simp only [Bool.and_eq_true, not_and]
      exact fun hres _ => hnres hres
    have hie0 : (refs.filter (fun r => resolvable env r &&
        !(decide (formatRef r ∈ getSentVersesToday L user.user_id today)))).isEmpty
        = true := by rw [h0]; rfl
    have hie1 : (refs.filter (resolvable env)).isEmpty = true := by rw [hfil]; rfl
    simp only [getVersesForUserF, ht, hie0, if_true, hie1]
  · intro ht hs fuel
    have hie : (searchVerses env.kjvVerses (effectiveTopic user) 20).isEmpty = true := by
      rw [hs]; rfl
    simp only [getVersesForUserF, ht, hie, if_true]

/-- Witness for `select_fallback_amended`: the catalog topic of `envC3`
yields the empty result, and the unknown topic `"zzz"` with an empty
search pool steps to the same call on the default topic. -/
theorem select_fallback_amended_witness :
    getVersesForUserF 1 envC3 id id 0 0 []
      ⟨"u1", "mytopic", "07:30", "12:00", "16:30", "21:00"⟩ 2 = some ([], [])
    ∧ getVersesForUserF 3 envC3 id id 0 0 []
        ⟨"u1", "zzz", "07:30", "12:00", "16:30", "21:00"⟩ 2 =
      getVersesForUserF 2 envC3 id id 0 0 []
        ⟨"u1", "encouragement", "07:30", "12:00", "16:30", "21:00"⟩ 2 :=
  ⟨(select_fallback_amended envC3 id id 0 0 []
      ⟨"u1", "mytopic", "07:30", "12:00", "16:30", "21:00"⟩ 2).1
      [⟨"Nowhere", 9, 9⟩] (by decide) (by decide),
   (select_fallback_amended envC3 id id 0 0 []
      ⟨"u1", "zzz", "07:30", "12:00", "16:30", "21:00"⟩ 2).2
      (by decide) (by decide) 2⟩

end BibleBot
